import Mathlib

/-!
Shallow embedding of the version-resolution-and-activation core of the
ddnswitch repository (src/core.go), together with theorems settling the
frozen claims about it.

Modelling conventions:
* Pure helpers of the Go code (string trimming, substring search, the
  Masterminds semver v3 parser and comparator used by the sort) are
  translated as executable Lean functions over `List Char` / `String`.
* Effectful collaborators (HTTP fetch, subprocess invocation, filesystem
  probes) are passed in as explicit environment records, mirroring the
  function-variable test seams the repository itself uses
  (`var installVersion = ...`, `var getSymlinkPath = ...` in core.go and
  their reassignment in main_test.go).
* Go `sort.Slice` is modelled by an insertion sort parameterised by the
  literal `less` closure from core.go.  `sort.Slice` only promises a
  sorted result for strict-weak-order comparators, so the sortedness
  theorems carry the corresponding local hypotheses.
* `filepath.Join` is modelled as separator concatenation, which agrees
  with it on the already-clean paths that appear in the claims.
-/

namespace DDNSwitch

/-! ## Characters and strings (Go string helpers) -/

/-- Byte-lexicographic comparison of Go strings, modelled on codepoints.
UTF-8 byte order coincides with codepoint order, so this matches Go `<`
on strings. -/
def charListLt : List Char → List Char → Bool
  | _, [] => false
  | [], _ :: _ => true
  | a :: as, b :: bs =>
    if a.val < b.val then true
    else if b.val < a.val then false
    else charListLt as bs

/-- Membership of `needle` as a leading segment of `hay`,
as used by Go `strings.Contains`. -/
def charListLeads : List Char → List Char → Bool
  | [], _ => true
  | _ :: _, [] => false
  | a :: as, b :: bs => a == b && charListLeads as bs

/-- Occurrence of `needle` anywhere inside `hay`. -/
def charListHas (needle : List Char) : List Char → Bool
  | [] => charListLeads needle []
  | b :: bs => charListLeads needle (b :: bs) || charListHas needle bs

/-- Go `strings.Contains s sub`. -/
def goContains (s sub : String) : Bool :=
  charListHas sub.data s.data

/-- ASCII fragment of Go `unicode.IsSpace`, plus NEL and NBSP.
The managed tool emits ASCII version strings, so this is the fragment
`strings.TrimSpace` exercises here. -/
def isSpaceGo (c : Char) : Bool :=
  c == ' ' || c == '\t' || c == '\n' || c == Char.ofNat 11 ||
  c == Char.ofNat 12 || c == '\r' || c == Char.ofNat 133 || c == Char.ofNat 160

/-- Go `strings.TrimSpace`. -/
def goTrimSpace (s : String) : String :=
  String.mk (((s.data.dropWhile isSpaceGo).reverse.dropWhile isSpaceGo).reverse)

/-- Go `strings.TrimPrefix tag "v"`: drops at most one leading `v`. -/
def trimLeadingV (s : String) : String :=
  match s.data with
  | 'v' :: rest => String.mk rest
  | _ => s

/-- Go `path := filepath.Join(a, b)` on clean components. -/
def joinPath (a b : String) : String := a ++ "/" ++ b

/-! ## Masterminds semver v3, as used by the release sort

`semver.NewVersion` matches the anchored regular expression
`v?([0-9]+)(\.[0-9]+)?(\.[0-9]+)?(-pre)?(\+meta)?` where `pre` and
`meta` are dot-separated nonempty runs of `[0-9A-Za-z-]`, and each
numeric group must fit in a `uint64`. -/

/-- Go `strconv.ParseUint(s, 10, 64)` restricted to the digit-only
groups the regular expression produces. -/
def parseUint64 (cs : List Char) : Option Nat :=
  if cs.isEmpty then none
  else if cs.all Char.isDigit then
    let v := cs.foldl (fun acc c => acc * 10 + (c.toNat - 48)) 0
    if v < 2 ^ 64 then some v else none
  else none

/-- Go `strconv.ParseInt(s, 10, 64)`, used on prerelease segments. -/
def parseInt64 (cs : List Char) : Option Int :=
  match cs with
  | '-' :: rest =>
    if rest.isEmpty then none
    else if rest.all Char.isDigit then
      let v : Nat := rest.foldl (fun acc c => acc * 10 + (c.toNat - 48)) 0
      if v ≤ 2 ^ 63 then some (-(v : Int)) else none
    else none
  | '+' :: rest =>
    if rest.isEmpty then none
    else if rest.all Char.isDigit then
      let v : Nat := rest.foldl (fun acc c => acc * 10 + (c.toNat - 48)) 0
      if v < 2 ^ 63 then some (v : Int) else none
    else none
  | _ =>
    if cs.isEmpty then none
    else if cs.all Char.isDigit then
      let v : Nat := cs.foldl (fun acc c => acc * 10 + (c.toNat - 48)) 0
      if v < 2 ^ 63 then some (v : Int) else none
    else none

/-- Characters allowed in prerelease and metadata segments. -/
def identCh (c : Char) : Bool := c.isDigit || c.isAlpha || c == '-'

/-- Go `strings.Split cs "."` on character lists. -/
def splitSegsDot : List Char → List (List Char)
  | [] => [[]]
  | '.' :: rest => [] :: splitSegsDot rest
  | c :: rest =>
    match splitSegsDot rest with
    | [] => [[c]]
    | s :: ss => (c :: s) :: ss

/-- Validity of a prerelease or metadata section:
dot-separated nonempty identifier segments. -/
def identSeries (cs : List Char) : Bool :=
  (splitSegsDot cs).all (fun seg => !seg.isEmpty && seg.all identCh)

/-- A parsed semantic version, as `semver.Version` stores it. -/
structure GoSemVer where
  major : Nat
  minor : Nat
  patch : Nat
  pre : List Char
  metadata : List Char
deriving DecidableEq, Repr

/-- An optional `.digits` group of the version regular expression.
`none` marks an overall parse failure, `some (none, r)` an absent group. -/
def numGroup? (cs : List Char) : Option (Option (List Char) × List Char) :=
  match cs with
  | '.' :: rest =>
    match List.span Char.isDigit rest with
    | (d, r) => if d.isEmpty then none else some (some d, r)
  | _ => some (none, cs)

/-- Value of an optional numeric group; absent groups default to 0. -/
def parseGroupNum : Option (List Char) → Option Nat
  | none => some 0
  | some d => parseUint64 d

/-- The `-pre` and `+meta` tail of the version regular expression. -/
def parseTail (cs : List Char) : Option (List Char × List Char) :=
  match cs with
  | [] => some ([], [])
  | '+' :: rest => if identSeries rest then some ([], rest) else none
  | '-' :: rest =>
    match List.span (fun c => !(c == '+')) rest with
    | (p, r) =>
      match r with
      | [] => if identSeries p then some (p, []) else none
      | _ :: m => if identSeries p && identSeries m then some (p, m) else none
  | _ => none

/-- Go `semver.NewVersion`. -/
def parseSemVer (s : String) : Option GoSemVer :=
  let cs :=
    match s.data with
    | 'v' :: rest => rest
    | other => other
  match List.span Char.isDigit cs with
  | (d1, r1) =>
    match parseUint64 d1 with
    | none => none
    | some maj =>
      match numGroup? r1 with
      | none => none
      | some (g2, r2) =>
        match parseGroupNum g2 with
        | none => none
        | some mino =>
          match numGroup? r2 with
          | none => none
          | some (g3, r3) =>
            match parseGroupNum g3 with
            | none => none
            | some pat =>
              match parseTail r3 with
              | none => none
              | some (pre, meta) => some ⟨maj, mino, pat, pre, meta⟩

/-- Three-way comparison of naturals, Go `compareSegment`. -/
def cmpNat (a b : Nat) : Int := if a < b then -1 else if b < a then 1 else 0

/-- Go `comparePrePart` from Masterminds semver v3. -/
def comparePrePart (s o : List Char) : Int :=
  if s = o then 0
  else if s.isEmpty then (if o.isEmpty then 1 else -1)
  else if o.isEmpty then 1
  else
    match parseInt64 o, parseInt64 s with
    | none, none => if charListLt o s then 1 else -1
    | none, some _ => -1
    | some _, none => 1
    | some oi, some si => if oi < si then 1 else -1

/-- Go `comparePrerelease`: segmentwise comparison with empty padding. -/
def comparePreSegs : List (List Char) → List (List Char) → Int
  | [], [] => 0
  | s :: ss, [] =>
    let d := comparePrePart s []
    if d = 0 then comparePreSegs ss [] else d
  | [], o :: os =>
    let d := comparePrePart [] o
    if d = 0 then comparePreSegs [] os else d
  | s :: ss, o :: os =>
    let d := comparePrePart s o
    if d = 0 then comparePreSegs ss os else d
termination_by a b => a.length + b.length

/-- Go `(*Version).Compare`; metadata is ignored. -/
def compareSemVer (a b : GoSemVer) : Int :=
  if a.major ≠ b.major then cmpNat a.major b.major
  else if a.minor ≠ b.minor then cmpNat a.minor b.minor
  else if a.patch ≠ b.patch then cmpNat a.patch b.patch
  else if a.pre.isEmpty && b.pre.isEmpty then 0
  else if a.pre.isEmpty then 1
  else if b.pre.isEmpty then -1
  else comparePreSegs (splitSegsDot a.pre) (splitSegsDot b.pre)

/-- Go `(*Version).GreaterThan`. -/
def semverGT (a b : GoSemVer) : Bool := decide (0 < compareSemVer a b)

/-! ## Release catalog data model (core.go `Release`, `Asset`) -/

structure Asset where
  name : String
  browserDownloadURL : String
deriving DecidableEq, Repr

structure Release where
  tagName : String
  name : String
  assets : List Asset
  preRelease : Bool
  draft : Bool
deriving DecidableEq, Repr

/-- The `less` closure handed to `sort.Slice` in `fetchAvailableVersions`:
semver descending, with descending string comparison as fallback whenever
either tag fails to parse. -/
def releaseLess (a b : Release) : Bool :=
  match parseSemVer (trimLeadingV a.tagName), parseSemVer (trimLeadingV b.tagName) with
  | some va, some vb => semverGT va vb
  | _, _ => charListLt b.tagName.data a.tagName.data

/-- Insertion step of the model of `sort.Slice`. -/
def insertByLess {α : Type _} (less : α → α → Bool) (a : α) : List α → List α
  | [] => [a]
  | b :: bs => if less a b then a :: b :: bs else b :: insertByLess less a bs

/-- Model of `sort.Slice validReleases less`. -/
def sortByLess {α : Type _} (less : α → α → Bool) (l : List α) : List α :=
  l.foldr (insertByLess less) []

/-- The filter loop of `fetchAvailableVersions`: drafts always dropped,
prereleases dropped unless `includePrerelease`. -/
def validFilter (includePrerelease : Bool) (releases : List Release) : List Release :=
  releases.filter (fun r => !r.draft && (includePrerelease || !r.preRelease))

/-- Filter-then-sort pipeline of `fetchAvailableVersions`. -/
def processReleases (includePrerelease : Bool) (releases : List Release) : List Release :=
  sortByLess releaseLess (validFilter includePrerelease releases)


/-! ## Elementary facts about the sort model -/

theorem mem_insertByLess {α : Type _} (less : α → α → Bool) (a x : α) (l : List α) :
    x ∈ insertByLess less a l ↔ x = a ∨ x ∈ l := by
  induction l with
  | nil => simp [insertByLess]
  | cons b bs ih =>
    by_cases h : less a b = true
    · simp only [insertByLess, if_pos h, List.mem_cons]
    · simp only [insertByLess, if_neg h, List.mem_cons, ih]
      tauto

theorem insertByLess_perm {α : Type _} (less : α → α → Bool) (a : α) (l : List α) :
    List.Perm (insertByLess less a l) (a :: l) := by
  induction l with
  | nil => rfl
  | cons b bs ih =>
    by_cases h : less a b = true
    · simp [insertByLess, h]
    · simp only [insertByLess, if_neg h]
      exact (ih.cons b).trans (List.Perm.swap a b bs)

theorem sortByLess_perm {α : Type _} (less : α → α → Bool) (l : List α) :
    List.Perm (sortByLess less l) l := by
  induction l with
  | nil => rfl
  | cons a as ih =>
    exact (insertByLess_perm less a (sortByLess less as)).trans (ih.cons a)

theorem sorted_insertByLess {α : Type _} (less : α → α → Bool) (a : α) (l : List α)
    (htrans : ∀ x ∈ a :: l, ∀ y ∈ a :: l, ∀ z ∈ a :: l,
      less x y = true → less y z = true → less x z = true)
    (hasym : ∀ x ∈ a :: l, ∀ y ∈ a :: l, less x y = true → less y x = true → False)
    (hs : l.Pairwise (fun x y => less y x = false)) :
    (insertByLess less a l).Pairwise (fun x y => less y x = false) := by
  induction l with
  | nil => simp [insertByLess]
  | cons b bs ih =>
    rw [List.pairwise_cons] at hs
    obtain ⟨hb, hbs⟩ := hs
    have hsub : ∀ w ∈ a :: bs, w ∈ a :: b :: bs := by
      intro w hw
      rcases List.mem_cons.mp hw with h1 | h1 <;> simp [h1]
    by_cases h : less a b = true
    · simp only [insertByLess, if_pos h]
      rw [List.pairwise_cons]
      refine ⟨?_, List.pairwise_cons.mpr ⟨hb, hbs⟩⟩
      intro y hy
      rcases List.mem_cons.mp hy with hyb | hybs
      · subst hyb
        cases hba : less y a with
        | false => rfl
        | true => exact (hasym a (by simp) y (by simp) h hba).elim
      · cases hya : less y a with
        | false => rfl
        | true =>
          have hyb : less y b = true :=
            htrans y (by simp [hybs]) a (by simp) b (by simp) hya h
          exact absurd hyb (by simp [hb y hybs])
    · simp only [insertByLess, if_neg h]
      rw [List.pairwise_cons]
      constructor
      · intro x hx
        rcases (mem_insertByLess less a x bs).mp hx with hxa | hxbs
        · subst hxa
          cases hab : less x b with
          | false => rfl
          | true => exact absurd hab h
        · exact hb x hxbs
      · exact ih
          (fun x hx y hy z hz => htrans x (hsub x hx) y (hsub y hy) z (hsub z hz))
          (fun x hx y hy => hasym x (hsub x hx) y (hsub y hy))
          hbs

theorem sorted_sortByLess {α : Type _} (less : α → α → Bool) (l : List α)
    (htrans : ∀ x ∈ l, ∀ y ∈ l, ∀ z ∈ l,
      less x y = true → less y z = true → less x z = true)
    (hasym : ∀ x ∈ l, ∀ y ∈ l, less x y = true → less y x = true → False) :
    (sortByLess less l).Pairwise (fun x y => less y x = false) := by
  induction l with
  | nil => simp [sortByLess]
  | cons a as ih =>
    have hsub : ∀ w ∈ a :: sortByLess less as, w ∈ a :: as := by
      intro w hw
      rcases List.mem_cons.mp hw with h1 | h1
      · simp [h1]
      · simp [(sortByLess_perm less as).mem_iff.mp h1]
    have hsub2 : ∀ w ∈ as, w ∈ a :: as := fun w hw => by simp [hw]
    exact sorted_insertByLess less a (sortByLess less as)
      (fun x hx y hy z hz => htrans x (hsub x hx) y (hsub y hy) z (hsub z hz))
      (fun x hx y hy => hasym x (hsub x hx) y (hsub y hy))
      (ih
        (fun x hx y hy z hz => htrans x (hsub2 x hx) y (hsub2 y hy) z (hsub2 z hz))
        (fun x hx y hy => hasym x (hsub2 x hx) y (hsub2 y hy)))

/-! ## Version cache (`fetchAvailableVersions`, core.go lines 68 to 142)

The mutable package state `versionCache`, `versionCacheTime`,
`cachePrerelease` is reified as `CacheState`; the outcome of the single
HTTP interaction is an explicit `HttpOutcome`.  Timestamps are naturals
(the unit is irrelevant; one hour is 3600 with seconds).  `time.Since`
on a timestamp not in the future is `now - versionCacheTime`. -/

def binName : String := "ddn"

def cacheTTL : Nat := 3600

instance exceptDecEq {ε α : Type _} [DecidableEq ε] [DecidableEq α] :
    DecidableEq (Except ε α) := fun x y =>
  match x, y with
  | .ok a, .ok b =>
    if h : a = b then isTrue (by rw [h])
    else isFalse (by intro hc; cases hc; exact h rfl)
  | .ok _, .error _ => isFalse (by intro hc; cases hc)
  | .error _, .ok _ => isFalse (by intro hc; cases hc)
  | .error e, .error f =>
    if h : e = f then isTrue (by rw [h])
    else isFalse (by intro hc; cases hc; exact h rfl)

structure CacheState where
  versionCache : List Release
  versionCacheTime : Nat
  cachePrerelease : Bool
deriving DecidableEq, Repr

inductive HttpOutcome
  | reqError
  | netError
  | response (status : Nat) (body : Option (List Release))
deriving DecidableEq, Repr

inductive FetchErr
  | requestFailed
  | networkFailed
  | badStatus (code : Nat)
  | decodeFailed
deriving DecidableEq, Repr

structure FetchResult where
  result : Except FetchErr (List Release)
  state : CacheState
  cacheHit : Bool
  networkCall : Bool
deriving DecidableEq, Repr

/-- core.go `fetchAvailableVersions`: serve the cached snapshot when the
entry is younger than the TTL, nonempty, and was stored under the same
prerelease flag; otherwise fetch, filter, sort, and replace the entry.
`cacheHit` records an early return from the read-locked section and
`networkCall` records whether `client.Do` ran. -/
def fetchAvailableVersions (includePrerelease : Bool) (now : Nat)
    (env : HttpOutcome) (st : CacheState) : FetchResult :=
  if now - st.versionCacheTime < cacheTTL ∧ 0 < st.versionCache.length ∧
      st.cachePrerelease = includePrerelease then
    ⟨.ok st.versionCache, st, true, false⟩
  else
    match env with
    | .reqError => ⟨.error .requestFailed, st, false, false⟩
    | .netError => ⟨.error .networkFailed, st, false, true⟩
    | .response status body =>
      if status ≠ 200 then ⟨.error (.badStatus status), st, false, true⟩
      else
        match body with
        | none => ⟨.error .decodeFailed, st, false, true⟩
        | some releases =>
          let valid := processReleases includePrerelease releases
          ⟨.ok valid, ⟨valid, now, includePrerelease⟩, false, true⟩

/-! ## Installer (`installVersionImpl`, core.go lines 363 to 439)

Filesystem and subprocess effects appear as an `InstallEnv` record, in
the spirit of the `downloadBinary` function-variable seam that
main_test.go swaps out.  `urlRequested` is `some url` exactly when
`downloadBinary` was invoked, so `none` certifies that no download URL
reached the network layer. -/

structure InstallEnv where
  goos : String
  goarch : String
  ensureOk : Bool
  installPath : String
  versionDirExists : Bool
  removeOk : Bool
  mkdirOk : Bool
  downloadOk : Bool
  runDownloaded : Option String
deriving Repr

inductive InstallErr
  | setupFailed
  | unsupportedPlatform
  | cleanupFailed
  | mkdirFailed
  | downloadFailed
  | verifyExecFailed
  | versionMismatch (reported : String)
deriving DecidableEq, Repr

structure InstallResult where
  outcome : Except InstallErr Unit
  urlRequested : Option String
deriving DecidableEq, Repr

/-- The download URL template of core.go line 403. -/
def downloadURL (version goos goarch : String) : String :=
  "https://graphql-engine-cdn.hasura.io/ddn/cli/v4/" ++ version ++
    "/cli-ddn-" ++ goos ++ "-" ++ goarch

/-- Expected binary path for a version under the install root
(core.go lines 257 to 261 and 406 to 409). -/
def binPathFor (installPath version goos : String) : String :=
  let p := joinPath (joinPath installPath version) binName
  if goos = "windows" then p ++ ".exe" else p

/-- core.go `installVersionImpl`: ensure the root, reject ARM Linux,
clean any stale directory, download, then verify that the fresh binary
runs and reports a version string containing the tag. -/
def installVersionImpl (version : String) (env : InstallEnv) : InstallResult :=
  if env.ensureOk = false then ⟨.error .setupFailed, none⟩
  else if env.goos = "linux" && (env.goarch = "arm64" || env.goarch = "arm") then
    ⟨.error .unsupportedPlatform, none⟩
  else if env.versionDirExists && !env.removeOk then ⟨.error .cleanupFailed, none⟩
  else if !env.mkdirOk then ⟨.error .mkdirFailed, none⟩
  else
    let url := downloadURL version env.goos env.goarch
    if !env.downloadOk then ⟨.error .downloadFailed, some url⟩
    else
      match env.runDownloaded with
      | none => ⟨.error .verifyExecFailed, some url⟩
      | some out =>
        if goContains (goTrimSpace out) version then ⟨.ok (), some url⟩
        else ⟨.error (.versionMismatch (goTrimSpace out)), some url⟩

/-! ## Activator (`switchToVersion`, core.go lines 242 to 357)

The install step is reached through the `installVersion` function
variable, so it appears here as the boolean oracle `installOk`, exactly
the seam TestSwitchToVersionWithIncorrectBinary replaces.  The symlink
phase models `os.Readlink` (`linkTarget`), `createSymlink` (with its
copy fallback), and the best-effort post-check (`runActive`). -/

inductive CreateLinkOutcome
  | linked
  | copied
  | failed
deriving DecidableEq, Repr

inductive ActiveEntry
  | symlinkTo (target : String)
  | fileCopyOf (src : String)
deriving DecidableEq, Repr

inductive SwitchErr
  | setupFailed
  | installFailed
  | reinstallFailed
  | linkPathFailed
  | linkCreateFailed
deriving DecidableEq, Repr

structure SwitchEnv where
  ensureOk : Bool
  installPath : String
  goos : String
  binPresent : Bool
  runExisting : Option String
  installOk : Bool
  linkPathRes : Option String
  linkTarget : Option String
  createRes : CreateLinkOutcome
  runActive : Option String
deriving DecidableEq, Repr

structure SwitchResult where
  outcome : Except SwitchErr Unit
  installCalls : Nat
  alreadyActive : Bool
  linkMutated : Bool
  finalActive : Option ActiveEntry
  warned : Bool
deriving DecidableEq, Repr

/-- The active entry before the call: `linkTarget` is what
`os.Readlink` would report, so a pre-existing link to `t` is
`symlinkTo t` and anything else is unknown (`none`). -/
def initialActive (env : SwitchEnv) : Option ActiveEntry :=
  env.linkTarget.map ActiveEntry.symlinkTo

/-- A copy of `env` with the link state replaced, used to express a
second call that starts from the filesystem the first call left. -/
def withLinkTarget (env : SwitchEnv) (t : Option String) : SwitchEnv :=
  ⟨env.ensureOk, env.installPath, env.goos, env.binPresent, env.runExisting,
    env.installOk, env.linkPathRes, t, env.createRes, env.runActive⟩

/-- The path a successful call leaves the active entry referencing. -/
def activeRef : Option ActiveEntry → Option String
  | some (.symlinkTo t) => some t
  | some (.fileCopyOf s) => some s
  | none => none

/-- What `os.Readlink` reports after the call: only a real symlink
resolves; a copied file or an unknown state does not. -/
def readlinkOf : Option ActiveEntry → Option String
  | some (.symlinkTo t) => some t
  | _ => none

/-- The install-if-missing / verify-and-reinstall phase of
`switchToVersion` (core.go lines 264 to 311): the optional error and the
number of `installVersion` invocations. -/
def instPhase (version : String) (env : SwitchEnv) : Option SwitchErr × Nat :=
  if env.binPresent = false then
    (if env.installOk then none else some .installFailed, 1)
  else
    match env.runExisting with
    | none => (if env.installOk then none else some .reinstallFailed, 1)
    | some out =>
      if goContains (goTrimSpace out) version then (none, 0)
      else (if env.installOk then none else some .reinstallFailed, 1)

/-- The best-effort post-check of core.go lines 338 to 354: running the
bare command name and warning when its output does not contain the tag;
an invocation failure is only debug-logged. -/
def switchWarn (version : String) (env : SwitchEnv) : Bool :=
  match env.runActive with
  | none => false
  | some out => !goContains (goTrimSpace out) version

/-- The link phase of `switchToVersion` (core.go lines 313 to 356),
entered with the install phase already successful after `n` install
calls. -/
def linkPhase (version : String) (env : SwitchEnv) (n : Nat) : SwitchResult :=
  match env.linkPathRes with
  | none => ⟨.error .linkPathFailed, n, false, false, initialActive env, false⟩
  | some _ =>
    if env.linkTarget = some (binPathFor env.installPath version env.goos) then
      ⟨.ok (), n, true, false,
        some (.symlinkTo (binPathFor env.installPath version env.goos)), false⟩
    else
      match env.createRes with
      | .linked =>
        ⟨.ok (), n, false, true,
          some (.symlinkTo (binPathFor env.installPath version env.goos)),
          switchWarn version env⟩
      | .copied =>
        ⟨.ok (), n, false, true,
          some (.fileCopyOf (binPathFor env.installPath version env.goos)),
          switchWarn version env⟩
      | .failed => ⟨.error .linkCreateFailed, n, false, true, none, false⟩

/-- core.go `switchToVersion`.  Phases: ensure the install root; install
when the binary is absent; otherwise run it with `version` and force a
single reinstall when the invocation fails or the output does not
contain the tag; resolve the link path; return early when the existing
link already resolves to the expected binary; otherwise recreate the
link (symlink, with copy fallback); finally run a best-effort version
check that can only warn. -/
def switchToVersion (version : String) (env : SwitchEnv) : SwitchResult :=
  if env.ensureOk = false then
    ⟨.error .setupFailed, 0, false, false, initialActive env, false⟩
  else
    match instPhase version env with
    | (some e, n) => ⟨.error e, n, false, false, initialActive env, false⟩
    | (none, n) => linkPhase version env n

/-! ## Uninstall (`uninstallVersion`, core.go lines 580 to 598) -/

inductive UninstallErr
  | pathFailed
  | notInstalled (version : String)
  | removeFailed (version : String)
deriving DecidableEq, Repr

structure UninstallEnv where
  installPathOk : Bool
  versionDirExists : Bool
  removeOk : Bool
deriving DecidableEq, Repr

structure UninstallResult where
  outcome : Except UninstallErr Unit
  removeCalled : Bool
deriving DecidableEq, Repr

/-- core.go `uninstallVersion`: refuse with a not-installed error when
the version directory is absent, and only otherwise run the recursive
delete.  `removeCalled` records an `os.RemoveAll` invocation. -/
def uninstallVersion (version : String) (env : UninstallEnv) : UninstallResult :=
  if env.installPathOk = false then ⟨.error .pathFailed, false⟩
  else if env.versionDirExists = false then ⟨.error (.notInstalled version), false⟩
  else if env.removeOk = false then ⟨.error (.removeFailed version), true⟩
  else ⟨.ok (), true⟩

/-! ## Symlink resolver (`getSymlinkPathImpl`, core.go lines 628 to 682) -/

structure PathEnv where
  pathDirs : List String
  writable : String → Bool
  mkdirHomeBinOk : Bool
  goos : String

/-- The fixed preferred directories, in preference order. -/
def preferredDirs (homeDir : String) : List String :=
  [joinPath homeDir "bin", joinPath (joinPath homeDir ".local") "bin",
    "/usr/local/bin"]

/-- The file name appended to the chosen directory. -/
def binLinkName (goos : String) : String :=
  if goos = "windows" then binName ++ ".exe" else binName

/-- The first element satisfying the predicate: both searching loops of
`getSymlinkPathImpl` in one shape. -/
def findFirst {α : Type _} (p : α → Bool) : List α → Option α
  | [] => none
  | a :: as => if p a then some a else findFirst p as

/-- The writability probe of the second loop: empty and `"."` entries
are skipped, anything else is probed by creating and deleting a marker
file, which `PathEnv.writable` abstracts. -/
def writableProbe (env : PathEnv) (d : String) : Bool :=
  !(d == "") && !(d == ".") && env.writable d

/-- core.go `getSymlinkPathImpl`: take the first preferred directory
that occurs verbatim in the search list; otherwise the first probed
writable entry; otherwise synthesize the home bin directory, failing
only when its creation fails. -/
def getSymlinkPathImpl (homeDir : String) (env : PathEnv) : Option String :=
  let fromPreferred :=
    findFirst (fun p => (findFirst (fun pd => pd == p) env.pathDirs).isSome)
      (preferredDirs homeDir)
  let symlinkDir :=
    match fromPreferred with
    | some p => some p
    | none => findFirst (writableProbe env) env.pathDirs
  match symlinkDir with
  | some d => some (joinPath d (binLinkName env.goos))
  | none =>
    if env.mkdirHomeBinOk then
      some (joinPath (joinPath homeDir "bin") (binLinkName env.goos))
    else none

/-- The resolver as section 4.5 of the specification words it: the same
three tiers, but with the second tier taking the first directory of the
search list in which a marker file can be created and deleted, with no
exclusions.  Introduced only to compare the specified behaviour with
the implemented one. -/
def resolveLinkPathSpec (homeDir : String) (env : PathEnv) : Option String :=
  let fromPreferred :=
    findFirst (fun p => (findFirst (fun pd => pd == p) env.pathDirs).isSome)
      (preferredDirs homeDir)
  let symlinkDir :=
    match fromPreferred with
    | some p => some p
    | none => findFirst env.writable env.pathDirs
  match symlinkDir with
  | some d => some (joinPath d (binLinkName env.goos))
  | none =>
    if env.mkdirHomeBinOk then
      some (joinPath (joinPath homeDir "bin") (binLinkName env.goos))
    else none

/-! ## Helper lemmas about the models -/

theorem findFirst_eq_none_of {α : Type _} (p : α → Bool) (l : List α)
    (h : ∀ x ∈ l, p x = false) : findFirst p l = none := by
  induction l with
  | nil => rfl
  | cons a as ih =>
    simp only [findFirst]
    rw [if_neg (by simp [h a (by simp)])]
    exact ih (fun x hx => h x (by simp [hx]))

theorem findFirst_append_first {α : Type _} (p : α → Bool) (l1 l2 : List α)
    (a : α) (h1 : ∀ x ∈ l1, p x = false) (h2 : p a = true) :
    findFirst p (l1 ++ a :: l2) = some a := by
  induction l1 with
  | nil => simp [findFirst, h2]
  | cons b bs ih =>
    simp only [List.cons_append, findFirst]
    rw [if_neg (by simp [h1 b (by simp)])]
    exact ih (fun x hx => h1 x (by simp [hx]))

theorem findFirst_isSome_iff_mem (q : String) (l : List String) :
    (findFirst (fun pd => pd == q) l).isSome = true ↔ q ∈ l := by
  induction l with
  | nil => simp [findFirst]
  | cons a as ih =>
    simp only [findFirst]
    by_cases h : a = q
    · subst h
      simp
    · rw [if_neg (by simp [h])]
      simp only [ih, List.mem_cons]
      constructor
      · exact Or.inr
      · rintro (hq | hq)
        · exact absurd hq.symm h
        · exact hq

/-- A successful `installVersionImpl` always came through the final
verification: the fresh binary ran and its trimmed output contains the
tag. -/
theorem installVersionImpl_ok_reports (version : String) (env : InstallEnv)
    (hok : (installVersionImpl version env).outcome = .ok ()) :
    ∃ out, env.runDownloaded = some out ∧
      goContains (goTrimSpace out) version = true := by
  unfold installVersionImpl at hok
  split at hok
  · simp at hok
  · split at hok
    · simp at hok
    · split at hok
      · simp at hok
      · split at hok
        · simp at hok
        · split at hok
          · simp at hok
          · split at hok
            · simp at hok
            · rename_i out heq
              split at hok
              · rename_i hcont
                exact ⟨out, heq, hcont⟩
              · simp at hok

/-- Any successful `switchToVersion` leaves the active entry referencing
the expected binary path of the requested version. -/
theorem switchToVersion_ok_activeRef (version : String) (env : SwitchEnv)
    (hok : (switchToVersion version env).outcome = .ok ()) :
    activeRef (switchToVersion version env).finalActive =
      some (binPathFor env.installPath version env.goos) := by
  obtain ⟨eo, heo⟩ : ∃ eo, env.ensureOk = eo := ⟨_, rfl⟩
  cases eo with
  | false =>
    exfalso
    simp [switchToVersion, heo] at hok
  | true =>
    have hne : ¬(env.ensureOk = false) := by simp [heo]
    unfold switchToVersion at hok ⊢
    rw [if_neg hne] at hok ⊢
    obtain ⟨ph, hphase⟩ : ∃ ph, instPhase version env = ph := ⟨_, rfl⟩
    rcases ph with ⟨oerr, n⟩
    rw [hphase] at hok ⊢
    cases oerr with
    | some e => simp at hok
    | none =>
      have hok2 : (linkPhase version env n).outcome = Except.ok () := hok
      show activeRef (linkPhase version env n).finalActive =
        some (binPathFor env.installPath version env.goos)
      clear hok
      unfold linkPhase at hok2 ⊢
      obtain ⟨lp, hlp⟩ : ∃ lp, env.linkPathRes = lp := ⟨_, rfl⟩
      cases lp with
      | none =>
        rw [hlp] at hok2
        simp at hok2
      | some sp =>
        rw [hlp] at hok2 ⊢
        by_cases hlink : env.linkTarget =
            some (binPathFor env.installPath version env.goos)
        · simp only [if_pos hlink]
          rfl
        · simp only [if_neg hlink] at hok2 ⊢
          obtain ⟨cr, hcr⟩ : ∃ cr, env.createRes = cr := ⟨_, rfl⟩
          cases cr <;> rw [hcr] at hok2 ⊢
          · rfl
          · rfl
          · simp at hok2

theorem instPhase_of_bad_binary (version : String) (env : SwitchEnv)
    (hbin : env.binPresent = true)
    (hbad : env.runExisting = none ∨
      ∃ out, env.runExisting = some out ∧
        goContains (goTrimSpace out) version = false) :
    instPhase version env =
      (if env.installOk then none else some .reinstallFailed, 1) := by
  unfold instPhase
  rw [if_neg (by simp [hbin])]
  rcases hbad with h | ⟨out, h, hco⟩
  · rw [h]
  · rw [h]
    simp [hco]

theorem instPhase_of_good_binary (version : String) (env : SwitchEnv)
    (hbin : env.binPresent = true) (out : String)
    (hrun : env.runExisting = some out)
    (hco : goContains (goTrimSpace out) version = true) :
    instPhase version env = (none, 0) := by
  unfold instPhase
  rw [if_neg (by simp [hbin]), hrun]
  simp [hco]

theorem linkPhase_already_active (version : String) (env : SwitchEnv)
    (n : Nat) (sp : String) (hsp : env.linkPathRes = some sp)
    (hlink : env.linkTarget =
      some (binPathFor env.installPath version env.goos)) :
    linkPhase version env n =
      ⟨.ok (), n, true, false,
        some (.symlinkTo (binPathFor env.installPath version env.goos)),
        false⟩ := by
  unfold linkPhase
  rw [hsp]
  simp only
  rw [if_pos hlink]

/-! ## Claim theorems -/

/-- Claim C1: a cache entry that exists (nonempty snapshot), is younger
than the one-hour TTL, and was stored under the requested prerelease
flag is served back without any network call; a stored flag differing
from the request forces a fresh fetch whose success replaces the entry
with the new snapshot, the current timestamp, and the requesting flag
value. -/
theorem fetch_cache_hit_and_flag_invalidation
    (flag : Bool) (now : Nat) (env : HttpOutcome) (st : CacheState) :
    (st.versionCache ≠ [] → now - st.versionCacheTime < cacheTTL →
      st.cachePrerelease = flag →
      fetchAvailableVersions flag now env st =
        ⟨.ok st.versionCache, st, true, false⟩) ∧
    (st.cachePrerelease ≠ flag → ∀ rs, env = .response 200 (some rs) →
      (fetchAvailableVersions flag now env st).networkCall = true ∧
      (fetchAvailableVersions flag now env st).state =
        ⟨processReleases flag rs, now, flag⟩ ∧
      (fetchAvailableVersions flag now env st).result =
        .ok (processReleases flag rs)) := by
  constructor
  · intro h1 h2 h3
    unfold fetchAvailableVersions
    rw [if_pos ⟨h2, by simpa using List.length_pos.mpr h1, h3⟩]
  · intro hne rs henv
    subst henv
    unfold fetchAvailableVersions
    rw [if_neg (by rintro ⟨-, -, h⟩; exact hne h)]
    simp

theorem fetch_cache_hit_and_flag_invalidation_witness :
    (fetchAvailableVersions false 100 HttpOutcome.reqError
        ⟨[⟨"v1.0.0", "", [], false, false⟩], 50, false⟩ =
      ⟨.ok [⟨"v1.0.0", "", [], false, false⟩],
        ⟨[⟨"v1.0.0", "", [], false, false⟩], 50, false⟩, true, false⟩) ∧
    (fetchAvailableVersions true 100
        (HttpOutcome.response 200 (some [⟨"v1.0.0", "", [], false, false⟩]))
        ⟨[⟨"v1.0.0", "", [], false, false⟩], 50, false⟩).state =
      ⟨processReleases true [⟨"v1.0.0", "", [], false, false⟩], 100, true⟩ := by
  constructor
  · exact (fetch_cache_hit_and_flag_invalidation false 100 HttpOutcome.reqError
      ⟨[⟨"v1.0.0", "", [], false, false⟩], 50, false⟩).1 (by decide) (by decide) rfl
  · exact ((fetch_cache_hit_and_flag_invalidation true 100
      (HttpOutcome.response 200 (some [⟨"v1.0.0", "", [], false, false⟩]))
      ⟨[⟨"v1.0.0", "", [], false, false⟩], 50, false⟩).2 (by decide)
      [⟨"v1.0.0", "", [], false, false⟩] rfl).2.1

/-- Claim C5: on every failed fetch (request creation error, network
error, non-OK status, or decode error) the call returns an error, and
the cache state is left exactly as it was before the call. -/
theorem fetch_failure_preserves_cache
    (flag : Bool) (now : Nat) (env : HttpOutcome) (st : CacheState)
    (henv : env = .reqError ∨ env = .netError ∨
      (∃ c b, env = .response c b ∧ c ≠ 200) ∨ ∃ c, env = .response c none) :
    (fetchAvailableVersions flag now env st).state = st ∧
    ((fetchAvailableVersions flag now env st).cacheHit = false →
      ∃ e, (fetchAvailableVersions flag now env st).result = .error e) := by
  unfold fetchAvailableVersions
  by_cases hc : now - st.versionCacheTime < cacheTTL ∧
      0 < st.versionCache.length ∧ st.cachePrerelease = flag
  · rw [if_pos hc]
    exact ⟨rfl, by intro h; simp at h⟩
  · rw [if_neg hc]
    rcases henv with h | h | ⟨c, b, h, hne⟩ | ⟨c, h⟩
    · subst h
      exact ⟨rfl, fun _ => ⟨_, rfl⟩⟩
    · subst h
      exact ⟨rfl, fun _ => ⟨_, rfl⟩⟩
    · subst h
      constructor
      · simp [hne]
      · intro _
        exact ⟨FetchErr.badStatus c, by simp [hne]⟩
    · subst h
      by_cases h200 : c = 200
      · subst h200
        constructor
        · simp
        · intro _
          exact ⟨FetchErr.decodeFailed, by simp⟩
      · constructor
        · simp [h200]
        · intro _
          exact ⟨FetchErr.badStatus c, by simp [h200]⟩

theorem fetch_failure_preserves_cache_witness :
    (fetchAvailableVersions true 100
        (HttpOutcome.response 500 (some []))
        ⟨[⟨"v1.0.0", "", [], false, false⟩], 50, false⟩).state =
      ⟨[⟨"v1.0.0", "", [], false, false⟩], 50, false⟩ :=
  (fetch_failure_preserves_cache true 100 (HttpOutcome.response 500 (some []))
    ⟨[⟨"v1.0.0", "", [], false, false⟩], 50, false⟩
    (Or.inr (Or.inr (Or.inl ⟨500, some [], rfl, by decide⟩)))).1

/-- Claim C9: an empty cached release list never produces a cache hit;
even a young, flag-matching entry is bypassed, and a successful fetch
then refreshes the entry. -/
theorem fetch_empty_cache_always_misses
    (flag : Bool) (now : Nat) (env : HttpOutcome) (st : CacheState)
    (h : st.versionCache = []) :
    (fetchAvailableVersions flag now env st).cacheHit = false ∧
    (∀ rs, env = .response 200 (some rs) →
      (fetchAvailableVersions flag now env st).networkCall = true ∧
      (fetchAvailableVersions flag now env st).state =
        ⟨processReleases flag rs, now, flag⟩) := by
  have hne : ¬(now - st.versionCacheTime < cacheTTL ∧
      0 < st.versionCache.length ∧ st.cachePrerelease = flag) := by
    rintro ⟨-, hlen, -⟩
    simp [h] at hlen
  unfold fetchAvailableVersions
  rw [if_neg hne]
  constructor
  · rcases env with _ | _ | ⟨status, body⟩
    · rfl
    · rfl
    · by_cases h200 : status = 200
      · subst h200
        cases body <;> simp
      · simp [h200]
  · rintro rs rfl
    simp

theorem fetch_empty_cache_always_misses_witness :
    (fetchAvailableVersions false 100
        (HttpOutcome.response 200 (some [⟨"v1.0.0", "", [], false, false⟩]))
        ⟨[], 99, false⟩).cacheHit = false ∧
    (fetchAvailableVersions false 100
        (HttpOutcome.response 200 (some [⟨"v1.0.0", "", [], false, false⟩]))
        ⟨[], 99, false⟩).networkCall = true := by
  refine ⟨(fetch_empty_cache_always_misses false 100
    (HttpOutcome.response 200 (some [⟨"v1.0.0", "", [], false, false⟩]))
    ⟨[], 99, false⟩ rfl).1, ?_⟩
  exact ((fetch_empty_cache_always_misses false 100
    (HttpOutcome.response 200 (some [⟨"v1.0.0", "", [], false, false⟩]))
    ⟨[], 99, false⟩ rfl).2 [⟨"v1.0.0", "", [], false, false⟩] rfl).1

/-- Claim C10: uninstalling a version whose directory is absent fails
with a not-installed error and performs no deletion; the recursive
delete runs only when the directory exists. -/
theorem uninstall_missing_version_error (version : String)
    (env : UninstallEnv) (hp : env.installPathOk = true)
    (hd : env.versionDirExists = false) :
    (uninstallVersion version env).outcome = .error (.notInstalled version) ∧
    (uninstallVersion version env).removeCalled = false ∧
    (∀ env' : UninstallEnv, (uninstallVersion version env').removeCalled = true →
      env'.versionDirExists = true) := by
  refine ⟨?_, ?_, ?_⟩
  · simp [uninstallVersion, hp, hd]
  · simp [uninstallVersion, hp, hd]
  · intro env' hrc
    obtain ⟨vd, hvd⟩ : ∃ vd, env'.versionDirExists = vd := ⟨_, rfl⟩
    cases vd with
    | true => exact hvd
    | false =>
      exfalso
      obtain ⟨po, hpo⟩ : ∃ po, env'.installPathOk = po := ⟨_, rfl⟩
      cases po <;> simp [uninstallVersion, hpo, hvd] at hrc

theorem uninstall_missing_version_error_witness :
    (uninstallVersion "v1.0.0" ⟨true, false, true⟩).outcome =
      .error (.notInstalled "v1.0.0") ∧
    (uninstallVersion "v1.0.0" ⟨true, false, true⟩).removeCalled = false :=
  ⟨(uninstall_missing_version_error "v1.0.0" ⟨true, false, true⟩ rfl rfl).1,
   (uninstall_missing_version_error "v1.0.0" ⟨true, false, true⟩ rfl rfl).2.1⟩

/-- Claim C6: an install succeeds only when the freshly downloaded
binary runs and its reported output contains the tag as a substring;
once the verification step is reached, an invocation failure or a
missing tag yields the corresponding verification error. -/
theorem install_verifies_tag_substring (version : String) (env : InstallEnv) :
    ((installVersionImpl version env).outcome = .ok () →
      ∃ out, env.runDownloaded = some out ∧
        goContains (goTrimSpace out) version = true) ∧
    (env.ensureOk = true →
      ¬(env.goos = "linux" ∧ (env.goarch = "arm64" ∨ env.goarch = "arm")) →
      (env.versionDirExists = true → env.removeOk = true) →
      env.mkdirOk = true → env.downloadOk = true →
      (env.runDownloaded = none →
        (installVersionImpl version env).outcome = .error .verifyExecFailed) ∧
      (∀ out, env.runDownloaded = some out →
        goContains (goTrimSpace out) version = false →
        (installVersionImpl version env).outcome =
          .error (.versionMismatch (goTrimSpace out)))) := by
  constructor
  · exact installVersionImpl_ok_reports version env
  · intro hens hplat hclean hmk hdl
    have hplatb : (env.goos = "linux" &&
        (env.goarch = "arm64" || env.goarch = "arm")) = false := by
      by_cases h1 : env.goos = "linux"
      · by_cases h2 : env.goarch = "arm64"
        · exact absurd ⟨h1, Or.inl h2⟩ hplat
        · by_cases h3 : env.goarch = "arm"
          · exact absurd ⟨h1, Or.inr h3⟩ hplat
          · simp [h1, h2, h3]
      · simp [h1]
    have hcl : (env.versionDirExists && !env.removeOk) = false := by
      obtain ⟨vd, hvd⟩ : ∃ vd, env.versionDirExists = vd := ⟨_, rfl⟩
      cases vd with
      | false => simp [hvd]
      | true => simp [hvd, hclean hvd]
    constructor
    · intro hrun
      simp [installVersionImpl, hens, hplatb, hcl, hmk, hdl, hrun]
    · intro out hrun hco
      simp [installVersionImpl, hens, hplatb, hcl, hmk, hdl, hrun, hco]

theorem install_verifies_tag_substring_witness :
    (∃ out,
      (InstallEnv.mk "darwin" "amd64" true "/r" false true true true
          (some "DDN CLI Version: v3.0.1")).runDownloaded = some out ∧
      goContains (goTrimSpace out) "v3.0.1" = true) ∧
    (installVersionImpl "v3.0.1"
        (InstallEnv.mk "darwin" "amd64" true "/r" false true true true
          (some "DDN CLI Version: v2.9.0"))).outcome =
      .error (.versionMismatch "DDN CLI Version: v2.9.0") := by
  constructor
  · exact (install_verifies_tag_substring "v3.0.1"
      (InstallEnv.mk "darwin" "amd64" true "/r" false true true true
        (some "DDN CLI Version: v3.0.1"))).1 (by decide)
  · have h2 := ((install_verifies_tag_substring "v3.0.1"
      (InstallEnv.mk "darwin" "amd64" true "/r" false true true true
        (some "DDN CLI Version: v2.9.0"))).2 rfl (by decide)
      (fun _ => rfl) rfl rfl).2 "DDN CLI Version: v2.9.0" rfl (by decide)
    have htrim : goTrimSpace "DDN CLI Version: v2.9.0" =
        "DDN CLI Version: v2.9.0" := by decide
    rw [htrim] at h2
    exact h2

/-- Claim C7: on ARM or ARM64 Linux, the installer fails with the
dedicated unsupported-platform error before any download URL is
constructed and before any network call is attempted. -/
theorem install_rejects_linux_arm (version : String) (env : InstallEnv)
    (hos : env.goos = "linux")
    (harch : env.goarch = "arm" ∨ env.goarch = "arm64") :
    (installVersionImpl version env).urlRequested = none ∧
    (env.ensureOk = true →
      (installVersionImpl version env).outcome =
        .error .unsupportedPlatform) := by
  constructor
  · obtain ⟨eo, heo⟩ : ∃ eo, env.ensureOk = eo := ⟨_, rfl⟩
    cases eo with
    | false => simp [installVersionImpl, heo]
    | true => rcases harch with h | h <;> simp [installVersionImpl, heo, hos, h]
  · intro hens
    rcases harch with h | h <;> simp [installVersionImpl, hens, hos, h]

theorem install_rejects_linux_arm_witness :
    (installVersionImpl "v3.0.1"
        (InstallEnv.mk "linux" "arm64" true "/r" false true true true
          (some "v3.0.1"))).urlRequested = none ∧
    (installVersionImpl "v3.0.1"
        (InstallEnv.mk "linux" "arm64" true "/r" false true true true
          (some "v3.0.1"))).outcome = .error .unsupportedPlatform :=
  ⟨(install_rejects_linux_arm "v3.0.1"
      (InstallEnv.mk "linux" "arm64" true "/r" false true true true
        (some "v3.0.1")) rfl (Or.inr rfl)).1,
   (install_rejects_linux_arm "v3.0.1"
      (InstallEnv.mk "linux" "arm64" true "/r" false true true true
        (some "v3.0.1")) rfl (Or.inr rfl)).2 rfl⟩

theorem linkPhase_installCalls (version : String) (env : SwitchEnv) (n : Nat) :
    (linkPhase version env n).installCalls = n := by
  unfold linkPhase
  obtain ⟨lp, hlp⟩ : ∃ lp, env.linkPathRes = lp := ⟨_, rfl⟩
  rw [hlp]
  cases lp with
  | none => rfl
  | some sp =>
    by_cases hlink : env.linkTarget =
        some (binPathFor env.installPath version env.goos)
    · simp only [if_pos hlink]
    · simp only [if_neg hlink]
      obtain ⟨cr, hcr⟩ : ∃ cr, env.createRes = cr := ⟨_, rfl⟩
      rw [hcr]
      cases cr <;> rfl

/-- A call that finds the binary healthy and the link already pointing
at the expected path returns the already-active result untouched. -/
theorem switchToVersion_already_active (version : String) (env : SwitchEnv)
    (hens : env.ensureOk = true) (hbin : env.binPresent = true)
    (out : String) (hrun : env.runExisting = some out)
    (hco : goContains (goTrimSpace out) version = true)
    (sp : String) (hsp : env.linkPathRes = some sp)
    (hlink : env.linkTarget =
      some (binPathFor env.installPath version env.goos)) :
    switchToVersion version env =
      ⟨.ok (), 0, true, false,
        some (.symlinkTo (binPathFor env.installPath version env.goos)),
        false⟩ := by
  have hne : ¬(env.ensureOk = false) := by simp [hens]
  unfold switchToVersion
  rw [if_neg hne, instPhase_of_good_binary version env hbin out hrun hco]
  exact linkPhase_already_active version env 0 sp hsp hlink

/-- After a successful call whose symlink creation did not fall back to
a copy, reading the link resolves to the expected binary path. -/
theorem switchToVersion_linked_readlink (version : String) (env : SwitchEnv)
    (hcr : env.createRes = .linked)
    (hok : (switchToVersion version env).outcome = .ok ()) :
    readlinkOf (switchToVersion version env).finalActive =
      some (binPathFor env.installPath version env.goos) := by
  obtain ⟨eo, heo⟩ : ∃ eo, env.ensureOk = eo := ⟨_, rfl⟩
  cases eo with
  | false =>
    exfalso
    simp [switchToVersion, heo] at hok
  | true =>
    have hne : ¬(env.ensureOk = false) := by simp [heo]
    unfold switchToVersion at hok ⊢
    rw [if_neg hne] at hok ⊢
    obtain ⟨ph, hphase⟩ : ∃ ph, instPhase version env = ph := ⟨_, rfl⟩
    rcases ph with ⟨oerr, n⟩
    rw [hphase] at hok ⊢
    cases oerr with
    | some e => simp at hok
    | none =>
      have hok2 : (linkPhase version env n).outcome = Except.ok () := hok
      show readlinkOf (linkPhase version env n).finalActive =
        some (binPathFor env.installPath version env.goos)
      clear hok
      unfold linkPhase at hok2 ⊢
      obtain ⟨lp, hlp⟩ : ∃ lp, env.linkPathRes = lp := ⟨_, rfl⟩
      cases lp with
      | none =>
        rw [hlp] at hok2
        simp at hok2
      | some sp =>
        rw [hlp] at hok2 ⊢
        by_cases hlink : env.linkTarget =
            some (binPathFor env.installPath version env.goos)
        · simp only [if_pos hlink]
          rfl
        · simp only [if_neg hlink] at hok2 ⊢
          rw [hcr] at hok2 ⊢
          rfl

/-- Claim C2: with the binary for the tag present but its version query
failing or reporting output without the tag, exactly one forced
reinstall happens; its failure is terminal for the call; a successful
call leaves the active entry referencing the expected binary path; and
any successful install has verified that its fresh binary reports the
tag. -/
theorem switch_corrupted_single_reinstall (version : String)
    (env : SwitchEnv) (hens : env.ensureOk = true)
    (hbin : env.binPresent = true)
    (hbad : env.runExisting = none ∨
      ∃ out, env.runExisting = some out ∧
        goContains (goTrimSpace out) version = false) :
    (switchToVersion version env).installCalls = 1 ∧
    (env.installOk = false →
      (switchToVersion version env).outcome = .error .reinstallFailed) ∧
    ((switchToVersion version env).outcome = .ok () →
      activeRef (switchToVersion version env).finalActive =
        some (binPathFor env.installPath version env.goos)) ∧
    (∀ ienv : InstallEnv, (installVersionImpl version ienv).outcome = .ok () →
      ∃ out, ienv.runDownloaded = some out ∧
        goContains (goTrimSpace out) version = true) := by
  have hphase := instPhase_of_bad_binary version env hbin hbad
  have hne : ¬(env.ensureOk = false) := by simp [hens]
  refine ⟨?_, ?_, switchToVersion_ok_activeRef version env,
    fun ienv => installVersionImpl_ok_reports version ienv⟩
  · unfold switchToVersion
    rw [if_neg hne, hphase]
    obtain ⟨io, hio⟩ : ∃ io, env.installOk = io := ⟨_, rfl⟩
    cases io with
    | false =>
      rw [hio]
      rfl
    | true =>
      rw [hio]
      exact linkPhase_installCalls version env 1
  · intro hio
    unfold switchToVersion
    rw [if_neg hne, hphase, hio]
    rfl

theorem switch_corrupted_single_reinstall_witness :
    (switchToVersion "v2.28.0"
        (SwitchEnv.mk true "/r" "linux" true
          (some "DDN CLI Version: v2.9.0") true (some "/usr/local/bin/ddn")
          none CreateLinkOutcome.linked
          (some "DDN CLI Version: v2.28.0"))).installCalls = 1 ∧
    activeRef (switchToVersion "v2.28.0"
        (SwitchEnv.mk true "/r" "linux" true
          (some "DDN CLI Version: v2.9.0") true (some "/usr/local/bin/ddn")
          none CreateLinkOutcome.linked
          (some "DDN CLI Version: v2.28.0"))).finalActive =
      some "/r/v2.28.0/ddn" := by
  have h := switch_corrupted_single_reinstall "v2.28.0"
    (SwitchEnv.mk true "/r" "linux" true
      (some "DDN CLI Version: v2.9.0") true (some "/usr/local/bin/ddn")
      none CreateLinkOutcome.linked (some "DDN CLI Version: v2.28.0"))
    rfl rfl (Or.inr ⟨"DDN CLI Version: v2.9.0", rfl, by decide⟩)
  exact ⟨h.1, h.2.2.1 (by decide)⟩

/-- Claim C3: a call that finds the active link already resolving to
the expected binary path for the tag reports already-active and
succeeds with no link mutation; and a second call run on the link state
a successful symlinking call leaves behind is exactly such a call, so
back-to-back calls leave the link unchanged. -/
theorem switch_link_idempotent (version : String) (env : SwitchEnv)
    (hens : env.ensureOk = true) (hbin : env.binPresent = true)
    (out : String) (hrun : env.runExisting = some out)
    (hco : goContains (goTrimSpace out) version = true)
    (sp : String) (hsp : env.linkPathRes = some sp) :
    (env.linkTarget = some (binPathFor env.installPath version env.goos) →
      switchToVersion version env =
        ⟨.ok (), 0, true, false,
          some (.symlinkTo (binPathFor env.installPath version env.goos)),
          false⟩) ∧
    (env.createRes = .linked →
      (switchToVersion version env).outcome = .ok () →
      switchToVersion version
          (withLinkTarget env
            (readlinkOf (switchToVersion version env).finalActive)) =
        ⟨.ok (), 0, true, false,
          some (.symlinkTo (binPathFor env.installPath version env.goos)),
          false⟩) := by
  constructor
  · intro hlink
    exact switchToVersion_already_active version env hens hbin out hrun hco
      sp hsp hlink
  · intro hcr hok
    rw [switchToVersion_linked_readlink version env hcr hok]
    exact switchToVersion_already_active version
      (withLinkTarget env
        (some (binPathFor env.installPath version env.goos)))
      hens hbin out hrun hco sp hsp rfl

theorem switch_link_idempotent_witness :
    switchToVersion "v2.28.0"
        (SwitchEnv.mk true "/r" "linux" true
          (some "DDN CLI Version: v2.28.0") true (some "/usr/local/bin/ddn")
          (some "/r/v2.28.0/ddn") CreateLinkOutcome.linked none) =
      ⟨.ok (), 0, true, false, some (.symlinkTo "/r/v2.28.0/ddn"), false⟩ :=
  (switch_link_idempotent "v2.28.0"
    (SwitchEnv.mk true "/r" "linux" true
      (some "DDN CLI Version: v2.28.0") true (some "/usr/local/bin/ddn")
      (some "/r/v2.28.0/ddn") CreateLinkOutcome.linked none)
    rfl rfl "DDN CLI Version: v2.28.0" rfl (by decide)
    "/usr/local/bin/ddn" rfl).1 (by decide)

/-- Claim C8 counterexample: with search list `["."]`, the current
directory writable, no preferred directory present, and home directory
creation available, the code skips `"."` and synthesizes the home bin
path, while the resolver as the claim words it (first search-list
directory in which a marker file can be created and deleted) would
choose `"."`. -/
theorem resolver_skips_dot_counterexample :
    getSymlinkPathImpl "/home/u"
        ⟨["."], fun d => d == ".", true, "linux"⟩ = some "/home/u/bin/ddn" ∧
    (PathEnv.mk ["."] (fun d => d == ".") true "linux").writable "." = true ∧
    resolveLinkPathSpec "/home/u"
        ⟨["."], fun d => d == ".", true, "linux"⟩ = some "./ddn" ∧
    some ("/home/u/bin/ddn" : String) ≠ some ("./ddn" : String) := by
  refine ⟨by decide, by decide, by decide, by decide⟩

/-- Claim C8 (amended): the resolver picks, in this order, the first of
the fixed preferred directories that appears verbatim in the search
list; otherwise the first search-list entry that is neither empty nor
`"."` and passes the marker-file writability probe; otherwise the home
bin directory, created when possible; and it returns the chosen
directory joined with the tool binary name plus the platform suffix. -/
theorem resolver_three_tier (homeDir : String) (env : PathEnv) :
    (∀ q1 p q2, preferredDirs homeDir = q1 ++ p :: q2 →
      (∀ p2 ∈ q1, p2 ∉ env.pathDirs) → p ∈ env.pathDirs →
      getSymlinkPathImpl homeDir env =
        some (joinPath p (binLinkName env.goos))) ∧
    ((∀ p ∈ preferredDirs homeDir, p ∉ env.pathDirs) →
      ∀ l1 d l2, env.pathDirs = l1 ++ d :: l2 → writableProbe env d = true →
      (∀ d2 ∈ l1, writableProbe env d2 = false) →
      getSymlinkPathImpl homeDir env =
        some (joinPath d (binLinkName env.goos))) ∧
    ((∀ p ∈ preferredDirs homeDir, p ∉ env.pathDirs) →
      (∀ d ∈ env.pathDirs, writableProbe env d = false) →
      getSymlinkPathImpl homeDir env =
        (if env.mkdirHomeBinOk then
          some (joinPath (joinPath homeDir "bin") (binLinkName env.goos))
        else none)) := by
  have hPfalse : ∀ r : String, r ∉ env.pathDirs →
      (findFirst (fun pd => pd == r) env.pathDirs).isSome = false := by
    intro r hr
    obtain ⟨b, hb⟩ : ∃ b, (findFirst (fun pd => pd == r) env.pathDirs).isSome = b :=
      ⟨_, rfl⟩
    cases b with
    | false => exact hb
    | true => exact absurd ((findFirst_isSome_iff_mem r env.pathDirs).mp hb) hr
  have hPtrue : ∀ r : String, r ∈ env.pathDirs →
      (findFirst (fun pd => pd == r) env.pathDirs).isSome = true :=
    fun r hr => (findFirst_isSome_iff_mem r env.pathDirs).mpr hr
  refine ⟨?_, ?_, ?_⟩
  · intro q1 p q2 hdec hq1 hp
    unfold getSymlinkPathImpl
    rw [hdec, findFirst_append_first
      (fun q => (findFirst (fun pd => pd == q) env.pathDirs).isSome) q1 q2 p
      (fun x hx => hPfalse x (hq1 x hx)) (hPtrue p hp)]
  · intro hpref l1 d l2 hdec hd hl1
    unfold getSymlinkPathImpl
    rw [findFirst_eq_none_of
      (fun q => (findFirst (fun pd => pd == q) env.pathDirs).isSome)
      (preferredDirs homeDir) (fun x hx => hPfalse x (hpref x hx))]
    rw [hdec, findFirst_append_first (writableProbe env) l1 l2 d hl1 hd]
  · intro hpref hwr
    unfold getSymlinkPathImpl
    rw [findFirst_eq_none_of
      (fun q => (findFirst (fun pd => pd == q) env.pathDirs).isSome)
      (preferredDirs homeDir) (fun x hx => hPfalse x (hpref x hx))]
    rw [findFirst_eq_none_of (writableProbe env) env.pathDirs hwr]

theorem resolver_three_tier_witness :
    getSymlinkPathImpl "/h"
        ⟨["/h/bin"], fun _ => false, true, "linux"⟩ = some "/h/bin/ddn" :=
  (resolver_three_tier "/h" ⟨["/h/bin"], fun _ => false, true, "linux"⟩).1
    [] "/h/bin" ["/h/.local/bin", "/usr/local/bin"] (by decide)
    (by intro p2 hp2; exact absurd hp2 (List.not_mem_nil p2)) (by decide)

/-- Claim C4: the produced snapshot is a permutation of the input with
drafts removed unconditionally and prereleases removed unless the flag
is set; it carries no inversion of the comparator (descending semver
with descending string fallback), stated for inputs on which the Go
comparator is a strict weak order, the precondition `sort.Slice` itself
carries; and on the concrete catalog of the specification the snapshot
is exactly the two expected releases in order. -/
theorem process_releases_filter_sort (flag : Bool) (rs : List Release)
    (htrans : ∀ x ∈ validFilter flag rs, ∀ y ∈ validFilter flag rs,
      ∀ z ∈ validFilter flag rs,
      releaseLess x y = true → releaseLess y z = true →
      releaseLess x z = true)
    (hasym : ∀ x ∈ validFilter flag rs, ∀ y ∈ validFilter flag rs,
      releaseLess x y = true → releaseLess y x = true → False) :
    List.Perm (processReleases flag rs)
      (rs.filter fun r => !r.draft && (flag || !r.preRelease)) ∧
    (∀ r : Release, r ∈ processReleases flag rs ↔
      r ∈ rs ∧ r.draft = false ∧ (flag = true ∨ r.preRelease = false)) ∧
    (processReleases flag rs).Pairwise
      (fun a b => releaseLess b a = false) ∧
    processReleases false
        [⟨"v1.0.0", "v1.0.0", [], false, true⟩,
         ⟨"v2.0.0", "v2.0.0", [], true, false⟩,
         ⟨"v1.5.0", "v1.5.0", [], false, false⟩,
         ⟨"v3.0.0", "v3.0.0", [], false, false⟩] =
      [⟨"v3.0.0", "v3.0.0", [], false, false⟩,
       ⟨"v1.5.0", "v1.5.0", [], false, false⟩] := by
  refine ⟨sortByLess_perm releaseLess (validFilter flag rs), ?_,
    sorted_sortByLess releaseLess (validFilter flag rs) htrans hasym, ?_⟩
  · intro r
    unfold processReleases
    rw [(sortByLess_perm releaseLess (validFilter flag rs)).mem_iff]
    simp only [validFilter, List.mem_filter, Bool.and_eq_true,
      Bool.not_eq_true', Bool.or_eq_true]
  · decide

theorem process_releases_filter_sort_witness :
    (processReleases false
        [⟨"v1.0.0", "v1.0.0", [], false, true⟩,
         ⟨"v2.0.0", "v2.0.0", [], true, false⟩,
         ⟨"v1.5.0", "v1.5.0", [], false, false⟩,
         ⟨"v3.0.0", "v3.0.0", [], false, false⟩]).Pairwise
      (fun a b => releaseLess b a = false) ∧
    processReleases false
        [⟨"v1.0.0", "v1.0.0", [], false, true⟩,
         ⟨"v2.0.0", "v2.0.0", [], true, false⟩,
         ⟨"v1.5.0", "v1.5.0", [], false, false⟩,
         ⟨"v3.0.0", "v3.0.0", [], false, false⟩] =
      [⟨"v3.0.0", "v3.0.0", [], false, false⟩,
       ⟨"v1.5.0", "v1.5.0", [], false, false⟩] :=
  ⟨(process_releases_filter_sort false
      [⟨"v1.0.0", "v1.0.0", [], false, true⟩,
       ⟨"v2.0.0", "v2.0.0", [], true, false⟩,
       ⟨"v1.5.0", "v1.5.0", [], false, false⟩,
       ⟨"v3.0.0", "v3.0.0", [], false, false⟩]
      (by decide) (by decide)).2.2.1,
   (process_releases_filter_sort false
      [⟨"v1.0.0", "v1.0.0", [], false, true⟩,
       ⟨"v2.0.0", "v2.0.0", [], true, false⟩,
       ⟨"v1.5.0", "v1.5.0", [], false, false⟩,
       ⟨"v3.0.0", "v3.0.0", [], false, false⟩]
      (by decide) (by decide)).2.2.2⟩

end DDNSwitch
